import Mathlib

/-!
Verification of the storefront front-end (collection filtering, sorting,
pagination, product variant resolution, optimistic cart rendering,
recommended products) against its natural-language specification.

Each definition below is a shallow embedding of a function of the source;
the file is organised as: all definitions first, then the theorems.
-/

namespace Storefront

/-! ## Filter inputs (ProductFilter objects)

A decoded collection-filter input object, as produced by JSON.parse of a
filter query-parameter value or of a declared facet value's `input` string
(route `($locale).collections.$collectionHandle.tsx`).  The object has a
single key naming the filter kind; key order inside the nested objects is
the fixed order produced by the catalog API, so JSON.stringify of two such
parsed objects is a canonical, injective serialization.  Payload strings
are modelled as lists of characters; price bounds as optional integers. -/
inductive PF where
  | price (pmin pmax : Option Int)
  | available (b : Bool)
  | tag (t : List Char)
  | productVendor (v : List Char)
  | productType (t : List Char)
  | variantOption (name value : List Char)
deriving DecidableEq, Repr

/-- Does the parsed object carry a `price` key (JS truthiness of
`valueInput.price`)?  The `price` payload is an object, hence truthy
whenever present. -/
def hasPriceKey : PF → Bool
  | .price _ _ => true
  | _ => false

/-- The `min` bound of a price filter input (`input.price?.min`). -/
def pfPriceMin : PF → Option Int
  | .price m _ => m
  | _ => none

/-- The `max` bound of a price filter input (`input.price?.max`). -/
def pfPriceMax : PF → Option Int
  | .price _ m => m
  | _ => none

/-! ### JSON.stringify of a parsed filter input -/

/-- JSON string escaping of one character (quote and backslash get a
backslash prefix; other characters are emitted verbatim). -/
def escapeChar (c : Char) : List Char :=
  if c = '"' ∨ c = '\\' then ['\\', c] else [c]

/-- JSON string escaping of a character list. -/
def escStr : List Char → List Char
  | [] => []
  | c :: cs => escapeChar c ++ escStr cs

/-- A JSON string literal: opening quote, escaped body, closing quote. -/
def strLit (s : List Char) : List Char :=
  '"' :: (escStr s ++ ['"'])

/-- Decimal rendering of an integer (as JSON.stringify renders numbers). -/
def intChars (i : Int) : List Char :=
  if i < 0 then '-' :: Nat.toDigits 10 i.natAbs else Nat.toDigits 10 i.natAbs

/-- The serialization of the inner `price` object: keys `min`/`max` are
present exactly when the corresponding bound is. -/
def priceInner : Option Int → Option Int → List Char
  | none, none => ['{', '}']
  | some m, none => ['{', '"', 'm', 'i', 'n', '"', ':'] ++ intChars m ++ ['}']
  | none, some x => ['{', '"', 'm', 'a', 'x', '"', ':'] ++ intChars x ++ ['}']
  | some m, some x =>
      ['{', '"', 'm', 'i', 'n', '"', ':'] ++ intChars m ++ [','] ++
        ['"', 'm', 'a', 'x', '"', ':'] ++ intChars x ++ ['}']

/-- Serialization of a boolean JSON value. -/
def boolChars (b : Bool) : List Char :=
  if b then ['t', 'r', 'u', 'e'] else ['f', 'a', 'l', 's', 'e']

/-- The serialization of the inner `variantOption` object
`\x7b"name":N,"value":V\x7d`. -/
def voInner (n v : List Char) : List Char :=
  '{' :: '"' :: (['n', 'a', 'm', 'e'] ++ '"' :: ':' :: '"' ::
    (escStr n ++ '"' :: ',' :: '"' :: (['v', 'a', 'l', 'u', 'e'] ++
      '"' :: ':' :: '"' :: (escStr v ++ ['"', '}']))))

/-- The single top-level key of the filter object. -/
def pfKey : PF → List Char
  | .price _ _ => ['p', 'r', 'i', 'c', 'e']
  | .available _ => ['a', 'v', 'a', 'i', 'l', 'a', 'b', 'l', 'e']
  | .tag _ => ['t', 'a', 'g']
  | .productVendor _ => ['p', 'r', 'o', 'd', 'u', 'c', 't', 'V', 'e', 'n', 'd', 'o', 'r']
  | .productType _ => ['p', 'r', 'o', 'd', 'u', 'c', 't', 'T', 'y', 'p', 'e']
  | .variantOption _ _ => ['v', 'a', 'r', 'i', 'a', 'n', 't', 'O', 'p', 't', 'i', 'o', 'n']

/-- The serialized payload under the top-level key. -/
def pfPayload : PF → List Char
  | .price pmin pmax => priceInner pmin pmax
  | .available b => boolChars b
  | .tag t => strLit t
  | .productVendor v => strLit v
  | .productType t => strLit t
  | .variantOption n v => voInner n v

/-- A one-key JSON object `\x7b"key":payload\x7d`. -/
def keyWrap (k payload : List Char) : List Char :=
  '{' :: '"' :: (escStr k ++ '"' :: ':' :: (payload ++ ['}']))

/-- JSON.stringify of a parsed filter input object. -/
def jsonStringify (f : PF) : List Char :=
  keyWrap (pfKey f) (pfPayload f)

/-! ## Facet filter codec (collection route loader) -/

/-- The fixed query-parameter prefix reserved for facet encoding
(imported by the route from the SortFilter component; §6 of the spec:
"a filter parameter key is distinguished from others by a fixed string
prefix reserved for facet encoding"). -/
def FILTER_URL_PREFIX : String := "filter."

/-- The check key.startsWith(FILTER_URL_PREFIX), phrased on the underlying
character lists. -/
def hasFilterPrefix (key : String) : Bool :=
  List.isPrefixOf FILTER_URL_PREFIX.data key.data

/-- The loader's filter-parsing reduce over the URL query parameters.

Each parameter is modelled as its key together with the outcome of
`JSON.parse` on its value combined with the key remainder into a
ProductFilter object (`some f` when the value is valid JSON, `none` when
`JSON.parse` would throw).  The source pushes
`\x7b[filterKey]: JSON.parse(value)\x7d` for every key with the filter
prefix and has no try/catch, so a parse failure propagates out of the
reduce and aborts the loader; the recursion below is the exception
semantics of that reduce (an error at any element makes the whole result
an error). -/
def parseFilters : List (String × Option PF) → Except Unit (List PF)
  | [] => .ok []
  | (k, v) :: rest =>
    if hasFilterPrefix k then
      match v with
      | none => .error ()
      | some f => (parseFilters rest).map (fun fs => f :: fs)
    else parseFilters rest

/-- The matching of a decoded filter input against one declared facet
value's parsed input, from the loader's `appliedFilters` computation:

  if (valueInput.price && filter.price) return true;
  return JSON.stringify(valueInput) === JSON.stringify(filter);
-/
def matchesValue (valueInput filter : PF) : Bool :=
  if hasPriceKey valueInput && hasPriceKey filter then true
  else jsonStringify valueInput == jsonStringify filter

/-- One declared facet value (`collection.products.filters[].values[]`):
its id, human label, and parsed `input` object. -/
structure FacetValue where
  id : String
  label : String
  input : PF
deriving DecidableEq, Repr

/-- An applied filter as returned by the loader. -/
structure AppliedFilter where
  filter : PF
  label : String
deriving DecidableEq, Repr

/-- The body of the loader's `appliedFilters` map for one decoded filter:
find the first declared value matching it (else drop the filter with a
logged diagnostic); when the found value's id is `filter.v.price`,
synthesize a price label from the found value's own parsed input (with
`min` defaulting to 0 and the `max` branch taken only when `max` is
JS-truthy, i.e. present and nonzero); otherwise use the found value's
label verbatim.  `fmt` stands for the external locale-aware
`parseAsCurrency` collaborator. -/
def appliedFilterEntry (fmt : Int → String) (allFilterValues : List FacetValue)
    (filter : PF) : Option AppliedFilter :=
  match allFilterValues.find? (fun value => matchesValue value.input filter) with
  | none => none
  | some foundValue =>
    if foundValue.id = "filter.v.price" then
      let min := fmt ((pfPriceMin foundValue.input).getD 0)
      let max := match pfPriceMax foundValue.input with
        | some m => if m = 0 then ("") else fmt m
        | none => ""
      let label := if min ≠ "" ∧ max ≠ "" then min ++ " - " ++ max else ("Price")
      some ⟨filter, label⟩
    else
      some ⟨filter, foundValue.label⟩

/-- The loader's full `appliedFilters` list (unresolvable filters are
dropped). -/
def appliedFilters (fmt : Int → String) (allFilterValues : List FacetValue)
    (filters : List PF) : List AppliedFilter :=
  filters.filterMap (appliedFilterEntry fmt allFilterValues)

/-- A concrete stand-in for the external locale-aware `parseAsCurrency`
collaborator (en-US USD formatting of whole amounts), used to instantiate
theorems at concrete inputs. -/
def fmtUSD (n : Int) : String := "$" ++ toString n ++ ".00"

/-! ## Sort-token mapping (collection route) -/

/-- The function getSortValuesFromParam of the collection route: maps the `sort`
query parameter (or its absence) to a `(sortKey, reverse)` pair. -/
def getSortValuesFromParam (sortParam : Option String) : String × Bool :=
  match sortParam with
  | some ("price-high-low") => ("PRICE", true)
  | some ("price-low-high") => ("PRICE", false)
  | some ("best-selling") => ("BEST_SELLING", false)
  | some ("newest") => ("CREATED", true)
  | some ("featured") => ("MANUAL", false)
  | _ => ("RELEVANCE", false)

/-! ## Loader outcomes (product and collection routes) -/

/-- How a page load can end: success, a thrown 404 Response, or a thrown
invariant Error (tiny-invariant throws a plain Error, which surfaces as a
500-class error boundary, not as a not-found response). -/
inductive LoadOutcome where
  | ok
  | notFound
  | invariantFailure
deriving DecidableEq, Repr

/-- The product route loader's control flow: `invariant(productHandle)`
throws when the route param is absent; otherwise the catalog query runs
and `if (!product?.id) throw new Response('product', \x7bstatus: 404\x7d)`.
The query result is modelled as `none` (no product) or `some id`; an
empty id string is JS-falsy and also yields a 404. -/
def productLoaderOutcome (productHandle : Option String)
    (queryResult : Option String) : LoadOutcome :=
  match productHandle with
  | none => .invariantFailure
  | some _ =>
    match queryResult with
    | none => .notFound
    | some pid => if pid = "" then .notFound else .ok

/-- The collection route loader's control flow:
`invariant(collectionHandle, ...)` throws when the route param is absent;
otherwise `if (!collection) throw new Response('collection',
\x7bstatus: 404\x7d)`.  The query result is modelled as `true` when a
collection was returned. -/
def collectionLoaderOutcome (collectionHandle : Option String)
    (queryResult : Bool) : LoadOutcome :=
  match collectionHandle with
  | none => .invariantFailure
  | some _ => if queryResult then .ok else .notFound

/-! ## Scroll-triggered pagination (ProductsLoadedOnScroll) -/

/-- A navigate(...) call issued by the effect. -/
structure NavigateCall where
  target : String
  replaceHistory : Bool
  preventScrollReset : Bool
deriving DecidableEq, Repr

/-- The effect body of `ProductsLoadedOnScroll`:

  if (inView && hasNextPage)
    navigate(nextPageUrl, \x7breplace: true, preventScrollReset: true, state\x7d);
-/
def productsLoadedOnScrollEffect (inView hasNextPage : Bool)
    (nextPageUrl : String) : Option NavigateCall :=
  if inView && hasNextPage then
    some ⟨nextPageUrl, true, true⟩
  else none

/-! ## Optimistic cart line rendering (Cart component) -/

/-- The ambient optimistic data attached to a cart line id via
`OptimisticInput` / `useOptimisticData`: the remove button submits
`\x7baction: 'remove'\x7d`, the quantity buttons submit
`\x7bquantity: n\x7d`. -/
structure OptimisticData where
  action : Option String
  quantity : Option Nat
deriving DecidableEq, Repr

/-- The optimistic payload of the remove button (`ItemRemoveButton`). -/
def removalData : OptimisticData := ⟨some ("remove"), none⟩

/-- The optimistic payload of a quantity-adjust button
(`CartLineQuantityAdjust`). -/
def quantityChangeData (n : Nat) : OptimisticData := ⟨none, some n⟩

/-- Visibility of a cart line in `CartLineItem`:

  display: optimisticData?.action === 'remove' ? 'none' : 'flex'
-/
def cartLineVisible (od : Option OptimisticData) : Bool :=
  match od with
  | some d => !(d.action == some ("remove"))
  | none => true

/-- The rendered quantity in `CartLineQuantityAdjust`:

  const optimisticQuantity = optimisticData?.quantity || line.quantity;

JS `||` falls back when the left side is falsy, i.e. when the optimistic
data is absent, carries no quantity, or carries quantity 0. -/
def renderedQuantity (od : Option OptimisticData) (lineQuantity : Nat) : Nat :=
  match od with
  | some d =>
    match d.quantity with
    | some q => if q = 0 then lineQuantity else q
    | none => lineQuantity
  | none => lineQuantity

/-! ## Variant resolution fallback (product route) -/

/-- A product variant: id, availability flag, and its selected
`(optionName, value)` pairs. -/
structure Variant where
  vid : String
  availableForSale : Bool
  selectedOptions : List (String × String)
deriving DecidableEq, Repr

/-- Modelled from the spec: a Variant matches a Selection when, for every
option the Selection specifies, the Variant's value for that option
equals the Selection's value (§4.1).  The matcher itself runs in the
catalog collaborator behind the `selectedOrFirstAvailableVariant`
GraphQL field; only its declaration appears in the repository. -/
def variantMatches (v : Variant) (sel : List (String × String)) : Bool :=
  sel.all (fun nv => v.selectedOptions.lookup nv.1 == some nv.2)

/-- Modelled from the spec: the `selectedOrFirstAvailableVariant`
resolution requested by the product route's PRODUCT_FRAGMENT — the
variant matching the Selection if any; otherwise the first variant with
`availableForSale = true`; otherwise the first variant overall (§4.1 and
§8 of the spec).  The algorithm runs in the catalog collaborator; the
repository only declares the field and consumes its result. -/
def selectedOrFirstAvailableVariant (variants : List Variant)
    (sel : List (String × String)) : Option Variant :=
  match variants.find? (fun v => variantMatches v sel) with
  | some v => some v
  | none =>
    match variants.find? (fun v => v.availableForSale) with
    | some v => some v
    | none => variants.head?

/-! ## Recommended products (product route) -/

/-- A product card as consumed by `getRecommendedProducts` (only the id
drives the logic; the title stands for the remaining payload). -/
structure RProduct where
  pid : String
  title : String
deriving DecidableEq, Repr

/-- JS `Array.prototype.findIndex`: the first index satisfying the
predicate, or -1. -/
def jsFindIndex (l : List RProduct) (p : RProduct → Bool) : Int :=
  match l.findIdx? p with
  | some i => (i : Int)
  | none => -1

/-- JS `Array.prototype.splice(start, 1)`: a negative start counts from
the end (clamped at 0), a start past the end removes nothing. -/
def jsSpliceRemoveOne (l : List RProduct) (start : Int) : List RProduct :=
  let s : Nat := if start < 0 then (l.length + start).toNat else min start.toNat l.length
  l.take s ++ l.drop (s + 1)

/-- The dedup filter of `getRecommendedProducts`:

  .filter((value, index, array) =>
     array.findIndex((value2) => value2.id === value.id) === index)

keeps an element exactly when it is the first occurrence of its id. -/
def dedupById (l : List RProduct) : List RProduct :=
  (l.enum.filter (fun p => jsFindIndex l (fun w => w.pid == p.2.pid) == (p.1 : Int))).map
    (fun p => p.2)

/-- The function getRecommendedProducts of the product route: merge the
recommendations with the best-selling products, dedup by id, then
`splice(findIndex(id === productId), 1)` — which removes the requested
product when present, and the last element when `findIndex` returns
-1. -/
def getRecommendedProducts (recommended additional : List RProduct)
    (productId : String) : List RProduct :=
  let mergedProducts := dedupById (recommended ++ additional)
  let originalProduct := jsFindIndex mergedProducts (fun item => item.pid == productId)
  jsSpliceRemoveOne mergedProducts originalProduct

/-! # Theorems -/

/-! ## C7: sort-token mapping -/

/-- Claim C7: the sort-token mapping sends exactly "price-high-low" to
(PRICE, reverse=true), "price-low-high" to (PRICE, false), "best-selling"
to (BEST_SELLING, false), "newest" to (CREATED, true), "featured" to
(MANUAL, false), and every other token, including an absent one, to the
default (RELEVANCE, false). -/
theorem getSortValuesFromParam_spec :
    getSortValuesFromParam (some ("price-high-low")) = ("PRICE", true) ∧
    getSortValuesFromParam (some ("price-low-high")) = ("PRICE", false) ∧
    getSortValuesFromParam (some ("best-selling")) = ("BEST_SELLING", false) ∧
    getSortValuesFromParam (some ("newest")) = ("CREATED", true) ∧
    getSortValuesFromParam (some ("featured")) = ("MANUAL", false) ∧
    getSortValuesFromParam none = ("RELEVANCE", false) ∧
    ∀ s : String,
      s ∉ (["price-high-low", "price-low-high", "best-selling", "newest",
        "featured"] : List String) →
      getSortValuesFromParam (some s) = ("RELEVANCE", false) := by
  refine ⟨rfl, rfl, rfl, rfl, rfl, rfl, ?_⟩
  intro s hs
  simp only [List.mem_cons, List.not_mem_nil, or_false, not_or] at hs
  obtain ⟨h1, h2, h3, h4, h5⟩ := hs
  unfold getSortValuesFromParam
  split <;> simp_all

/-- Witness for C7: the unrecognized token "zzz" maps to the default. -/
theorem getSortValuesFromParam_spec_witness :
    getSortValuesFromParam (some ("zzz")) = ("RELEVANCE", false) :=
  getSortValuesFromParam_spec.2.2.2.2.2.2 ("zzz") (by decide)

/-! ## C9: scroll-triggered pagination -/

/-- Claim C9: the viewport-visibility signal triggers a navigation exactly
when the trigger element is in view and hasNextPage holds (so it never
fires on the last page), and every navigation it triggers is a history
replacement with scroll position preserved, targeting the next-page
URL. -/
theorem productsLoadedOnScrollEffect_spec (inView hasNextPage : Bool)
    (nextPageUrl : String) :
    ((productsLoadedOnScrollEffect inView hasNextPage nextPageUrl).isSome ↔
      (inView = true ∧ hasNextPage = true)) ∧
    ∀ c, productsLoadedOnScrollEffect inView hasNextPage nextPageUrl = some c →
      c.target = nextPageUrl ∧ c.replaceHistory = true ∧
        c.preventScrollReset = true := by
  constructor
  · cases inView <;> cases hasNextPage <;>
      simp [productsLoadedOnScrollEffect]
  · intro c hc
    cases inView <;> cases hasNextPage <;>
      simp [productsLoadedOnScrollEffect] at hc
    rw [← hc]
    exact ⟨rfl, rfl, rfl⟩

/-- Witness for C9: with the trigger in view and a next page available,
the effect issues a replace navigation, preserving scroll, to the
next-page URL. -/
theorem productsLoadedOnScrollEffect_spec_witness :
    NavigateCall.target ⟨"/collections/all?cursor=abc", true, true⟩ =
        "/collections/all?cursor=abc" ∧
      NavigateCall.replaceHistory ⟨"/collections/all?cursor=abc", true, true⟩ = true ∧
      NavigateCall.preventScrollReset ⟨"/collections/all?cursor=abc", true, true⟩ = true :=
  (productsLoadedOnScrollEffect_spec true true ("/collections/all?cursor=abc")).2
    ⟨"/collections/all?cursor=abc", true, true⟩ rfl

/-! ## C8: loader failure outcomes -/

/-- Claim C8 counterexample: a product page load with a missing route
handle does not end in a not-found (404) response — the invariant throws
a plain Error, a different outcome. -/
theorem productLoader_missingHandle_cex :
    productLoaderOutcome none (some ("gid://shopify/Product/1")) =
        LoadOutcome.invariantFailure ∧
      LoadOutcome.invariantFailure ≠ LoadOutcome.notFound :=
  ⟨rfl, by decide⟩

/-- Claim C8 (amended): a missing route handle aborts the page load with
a thrown invariant Error (a 500-class failure, not a 404); a handle that
resolves to no product/collection (or, for products, to a falsy id)
fails hard with a 404 not-found response; all other loads proceed. -/
theorem loaderOutcome_amended :
    (∀ q, productLoaderOutcome none q = LoadOutcome.invariantFailure) ∧
    (∀ b, collectionLoaderOutcome none b = LoadOutcome.invariantFailure) ∧
    (∀ h, productLoaderOutcome (some h) none = LoadOutcome.notFound) ∧
    (∀ h, productLoaderOutcome (some h) (some ("")) = LoadOutcome.notFound) ∧
    (∀ h pid, pid ≠ "" →
      productLoaderOutcome (some h) (some pid) = LoadOutcome.ok) ∧
    (∀ h, collectionLoaderOutcome (some h) false = LoadOutcome.notFound) ∧
    (∀ h, collectionLoaderOutcome (some h) true = LoadOutcome.ok) := by
  refine ⟨fun q => rfl, fun b => rfl, fun h => rfl, fun h => rfl, ?_,
    fun h => rfl, fun h => rfl⟩
  intro h pid hpid
  simp [productLoaderOutcome, hpid]

/-- Witness for C8 (amended): a resolvable product id yields success. -/
theorem loaderOutcome_amended_witness :
    ("gid://shopify/Product/1" : String) ≠ "" ∧
      productLoaderOutcome (some ("snowboard")) (some ("gid://shopify/Product/1")) =
        LoadOutcome.ok :=
  ⟨by decide, loaderOutcome_amended.2.2.2.2.1 ("snowboard") ("gid://shopify/Product/1")
    (by decide)⟩

/-! ## C5 and C6: optimistic cart line rendering -/

/-- Claim C5 counterexample: a pending quantity change to 0 does not
render quantity 0 — the JS `||` fallback renders the authoritative
quantity (here 5) instead. -/
theorem renderedQuantity_zero_cex :
    renderedQuantity (some (quantityChangeData 0)) 5 = 5 ∧ (5 : Nat) ≠ 0 :=
  ⟨rfl, by decide⟩

/-- Claim C5 (amended): for a pending quantity change to any nonzero n,
the line renders quantity n regardless of the authoritative quantity and
stays visible; a pending removal hides the line entirely; a line with no
pending mutation renders the authoritative quantity and is visible.  (A
quantity change to 0 is the exception: its JS-falsy payload makes the
rendering fall back to the authoritative quantity.) -/
theorem cartLine_optimistic_render (q : Nat) :
    (∀ n : Nat, n ≠ 0 →
      renderedQuantity (some (quantityChangeData n)) q = n ∧
        cartLineVisible (some (quantityChangeData n)) = true) ∧
    cartLineVisible (some removalData) = false ∧
    renderedQuantity none q = q ∧ cartLineVisible none = true := by
  refine ⟨?_, rfl, rfl, rfl⟩
  intro n hn
  exact ⟨by simp [renderedQuantity, quantityChangeData, hn], rfl⟩

/-- Witness for C5 (amended): a pending change to quantity 3 renders 3
over an authoritative quantity of 7. -/
theorem cartLine_optimistic_render_witness :
    renderedQuantity (some (quantityChangeData 3)) 7 = 3 ∧
      cartLineVisible (some (quantityChangeData 3)) = true :=
  (cartLine_optimistic_render 7).1 3 (by decide)

/-- Claim C6 counterexample: a pending quantity change to zero is not
rendered like a removal — the line stays visible (a removal hides it)
and shows the authoritative quantity 4. -/
theorem quantityZero_not_removal_cex :
    cartLineVisible (some (quantityChangeData 0)) = true ∧
      cartLineVisible (some removalData) = false ∧
      renderedQuantity (some (quantityChangeData 0)) 4 = 4 :=
  ⟨rfl, rfl, rfl⟩

/-- Claim C6 (amended): a pending quantity change to zero is ignored for
rendering: the line is not hidden and falls back to displaying the
authoritative quantity. -/
theorem quantityZero_render (q : Nat) :
    cartLineVisible (some (quantityChangeData 0)) = true ∧
      renderedQuantity (some (quantityChangeData 0)) q = q :=
  ⟨rfl, rfl⟩

/-! ## C1: filter parsing never throws? -/

/-- Claim C1 counterexample: one filter-prefixed parameter whose value is
not valid JSON aborts the whole parse with an exception (the reduce has
no try/catch), and the well-formed filter parameter after it is not
decoded either — the claim's skip-and-log recovery does not happen. -/
theorem parseFilters_throws_cex :
    parseFilters
      [("filter.available", none),
       ("filter.price", some (PF.price (some 10) (some 50)))] =
      Except.error () := rfl

/-- Claim C1 (amended): parsing the collection filters throws exactly
when some filter-prefixed parameter's value is not valid JSON, aborting
the page load; only when every filter-prefixed value is well-formed JSON
are the filters decoded, in parameter order. -/
theorem parseFilters_amended (params : List (String × Option PF)) :
    (parseFilters params = Except.error () ↔
      ∃ kv ∈ params, hasFilterPrefix kv.1 = true ∧ kv.2 = none) ∧
    ((∀ kv ∈ params, hasFilterPrefix kv.1 = true → kv.2 ≠ none) →
      parseFilters params =
        Except.ok (params.filterMap
          (fun kv => if hasFilterPrefix kv.1 then kv.2 else none))) := by
  induction params with
  | nil => simp [parseFilters]
  | cons kv rest ih =>
    obtain ⟨k, v⟩ := kv
    by_cases hk : hasFilterPrefix k
    · cases v with
      | none =>
        constructor
        · simp [parseFilters, hk]
        · intro hall
          exact absurd rfl (hall (k, none) (by simp) hk)
      | some f =>
        constructor
        · rcases hrest : parseFilters rest with e | fs
          · cases e
            have hL : parseFilters ((k, some f) :: rest) = Except.error () := by
              simp [parseFilters, hk, hrest, Except.map]
            constructor
            · intro _
              obtain ⟨kv2, hmem, hpre, hval⟩ := (ih.1).mp hrest
              exact ⟨kv2, List.mem_cons_of_mem _ hmem, hpre, hval⟩
            · intro _; exact hL
          · have hL : parseFilters ((k, some f) :: rest) =
                Except.ok (f :: fs) := by
              simp [parseFilters, hk, hrest, Except.map]
            constructor
            · intro hcontra
              rw [hL] at hcontra; exact absurd hcontra (by simp)
            · rintro ⟨kv2, hmem, hpre, hval⟩
              rcases List.mem_cons.mp hmem with heq | hmem2
              · rw [heq] at hval; simp at hval
              · have herr : parseFilters rest = Except.error () :=
                  (ih.1).mpr ⟨kv2, hmem2, hpre, hval⟩
                rw [hrest] at herr; exact absurd herr (by simp)
        · intro hall
          have hrest := ih.2 (fun kv2 hmem hpre =>
            hall kv2 (List.mem_cons_of_mem _ hmem) hpre)
          simp [parseFilters, hk, hrest, Except.map]
    · have hcons :
        parseFilters ((k, v) :: rest) = parseFilters rest := by
        simp [parseFilters, hk]
      constructor
      · rw [hcons, ih.1]
        constructor
        · rintro ⟨kv2, hmem, hpre, hval⟩
          exact ⟨kv2, List.mem_cons_of_mem _ hmem, hpre, hval⟩
        · rintro ⟨kv2, hmem, hpre, hval⟩
          rcases List.mem_cons.mp hmem with heq | hmem2
          · rw [heq] at hpre; simp at hpre; exact absurd hpre hk
          · exact ⟨kv2, hmem2, hpre, hval⟩
      · intro hall
        rw [hcons, ih.2 (fun kv2 hmem hpre =>
          hall kv2 (List.mem_cons_of_mem _ hmem) hpre)]
        simp [hk]

/-- Witness for C1 (amended): two parameters, one filter-prefixed with a
well-formed value and one foreign, decode to the single filter. -/
theorem parseFilters_amended_witness :
    parseFilters
      [("filter.price", some (PF.price (some 0) (some 100))),
       ("sort", (none : Option PF))] =
      Except.ok [PF.price (some 0) (some 100)] := by
  have h := (parseFilters_amended
    [("filter.price", some (PF.price (some 0) (some 100))),
     ("sort", (none : Option PF))]).2 (by decide)
  rw [h]
  rfl

/-! ## C2: applied filter labels -/

/-- The concrete currency formatter never returns the empty string. -/
theorem fmtUSD_ne_empty (n : Int) : fmtUSD n ≠ "" := by
  intro h
  have hlen := congrArg String.length h
  simp [fmtUSD, String.length_append] at hlen
  exact absurd hlen.2 (by decide)

/-- Claim C2 counterexample: the price label is synthesized from the
DECLARED facet value's input bounds, not from the applied filter's, and
the "Price" fallback does not coincide with "neither bound present".
First conjunct: the query filter price(min 10, max 50) resolved against
a declared price facet value with no bounds is labelled "Price", not
"$10.00 - $50.00".  Second conjunct: against a declared value whose
input carries a min bound (and no max), the label is still "Price"
although a bound is present. -/
theorem appliedFilter_price_label_cex :
    appliedFilterEntry fmtUSD
        [⟨"filter.v.price", "Price", PF.price none none⟩]
        (PF.price (some 10) (some 50)) =
      some ⟨PF.price (some 10) (some 50), "Price"⟩ ∧
    appliedFilterEntry fmtUSD
        [⟨"filter.v.price", "Price", PF.price (some 10) none⟩]
        (PF.price (some 10) (some 50)) =
      some ⟨PF.price (some 10) (some 50), "Price"⟩ := by
  constructor <;> rfl

/-- Claim C2 (amended): for every resolved applied filter, when the found
declared value's id is "filter.v.price" the label is synthesized from
the declared value's own input bounds — fmt(min, defaulting to 0) ++
" - " ++ fmt(max) when the declared max bound is present and nonzero,
and the literal "Price" exactly when the declared max bound is absent or
zero (the min bound never decides the fallback, since the formatter
never returns an empty string); for every other found value the declared
label is used verbatim. -/
theorem appliedFilterEntry_spec (fmt : Int → String)
    (hfmt : ∀ n, fmt n ≠ "") (vals : List FacetValue) (f : PF)
    (fv : FacetValue)
    (hfind : vals.find? (fun value => matchesValue value.input f) = some fv) :
    appliedFilterEntry fmt vals f =
      some ⟨f,
        if fv.id = "filter.v.price" then
          match pfPriceMax fv.input with
          | some m =>
            if m = 0 then ("Price")
            else fmt ((pfPriceMin fv.input).getD 0) ++ " - " ++ fmt m
          | none => "Price"
        else fv.label⟩ := by
  unfold appliedFilterEntry
  rw [hfind]
  by_cases hid : fv.id = "filter.v.price"
  · rcases hmax : pfPriceMax fv.input with _ | m
    · simp [hid, hmax]
    · by_cases hm : m = 0
      · simp [hid, hmax, hm]
      · simp [hid, hmax, hm, hfmt]
  · simp [hid]

/-- Witness for C2 (amended): a declared price facet value with bounds
10 and 50 yields the label "$10.00 - $50.00". -/
theorem appliedFilterEntry_spec_witness :
    appliedFilterEntry fmtUSD
        [⟨"filter.v.price", "Price", PF.price (some 10) (some 50)⟩]
        (PF.price none none) =
      some ⟨PF.price none none, "$10.00 - $50.00"⟩ := by
  have h := appliedFilterEntry_spec fmtUSD
    fmtUSD_ne_empty
    [⟨"filter.v.price", "Price", PF.price (some 10) (some 50)⟩]
    (PF.price none none)
    ⟨"filter.v.price", "Price", PF.price (some 10) (some 50)⟩
    rfl
  rw [h]
  rfl

/-! ## C4: variant resolution fallback -/

/-- A successful find? splits the list into a prefix of failures, the
found element, and a remainder. -/
theorem find?_eq_some_split {α : Type} (p : α → Bool) :
    ∀ (l : List α) (w : α), l.find? p = some w →
      ∃ l1 l2, l = l1 ++ w :: l2 ∧ (∀ u ∈ l1, p u = false) ∧ p w = true := by
  intro l
  induction l with
  | nil => intro w h; simp at h
  | cons a rest ih =>
    intro w h
    by_cases ha : p a
    · rw [List.find?_cons_of_pos _ ha] at h
      cases h
      exact ⟨[], rest, rfl, by simp, ha⟩
    · rw [List.find?_cons_of_neg _ (by simpa using ha)] at h
      obtain ⟨l1, l2, heq, hall, hw⟩ := ih w h
      refine ⟨a :: l1, l2, by simp [heq], ?_, hw⟩
      intro u hu
      rcases List.mem_cons.mp hu with rfl | hu2
      · simpa using ha
      · exact hall u hu2

/-- Claim C4: when the Selection matches no Variant, resolution falls
back to the first variant with availableForSale = true in declaration
order, or to the first variant overall when none is available — so a
product with at least one variant always yields a priceable variant to
display. -/
theorem selectedOrFirstAvailableVariant_fallback (variants : List Variant)
    (sel : List (String × String))
    (hnom : ∀ v ∈ variants, variantMatches v sel = false)
    (hne : variants ≠ []) :
    ∃ w, selectedOrFirstAvailableVariant variants sel = some w ∧
      ((∃ l1 l2, variants = l1 ++ w :: l2 ∧ w.availableForSale = true ∧
          ∀ u ∈ l1, u.availableForSale = false) ∨
        ((∀ v ∈ variants, v.availableForSale = false) ∧
          variants.head? = some w)) := by
  have hfindnone : variants.find? (fun v => variantMatches v sel) = none := by
    rw [List.find?_eq_none]
    intro x hx
    simp [hnom x hx]
  unfold selectedOrFirstAvailableVariant
  rw [hfindnone]
  rcases havail : variants.find? (fun v => v.availableForSale) with _ | w
  · have hall : ∀ v ∈ variants, v.availableForSale = false := by
      have hnot := List.find?_eq_none.mp havail
      intro v hv
      simpa using hnot v hv
    rcases variants with _ | ⟨a, rest⟩
    · exact absurd rfl hne
    · rw [havail]
      exact ⟨a, rfl, Or.inr ⟨hall, rfl⟩⟩
  · rw [havail]
    obtain ⟨l1, l2, heq, hl1, hw⟩ :=
      find?_eq_some_split (fun v => v.availableForSale) variants w havail
    exact ⟨w, rfl, Or.inl ⟨l1, l2, heq, hw, fun u hu => hl1 u hu⟩⟩

/-- Witness for C4: a selection matching no variant resolves to the
first available variant. -/
theorem selectedOrFirstAvailableVariant_fallback_witness :
    ∃ w, selectedOrFirstAvailableVariant
        [⟨"v1", false, [("Size", "S")]⟩, ⟨"v2", true, [("Size", "M")]⟩]
        [("Size", "L")] = some w ∧
      ((∃ l1 l2,
          ([⟨"v1", false, [("Size", "S")]⟩, ⟨"v2", true, [("Size", "M")]⟩] :
            List Variant) = l1 ++ w :: l2 ∧ w.availableForSale = true ∧
          ∀ u ∈ l1, u.availableForSale = false) ∨
        ((∀ v ∈ ([⟨"v1", false, [("Size", "S")]⟩,
            ⟨"v2", true, [("Size", "M")]⟩] : List Variant),
            v.availableForSale = false) ∧
          ([⟨"v1", false, [("Size", "S")]⟩,
            ⟨"v2", true, [("Size", "M")]⟩] : List Variant).head? = some w)) :=
  selectedOrFirstAvailableVariant_fallback
    [⟨"v1", false, [("Size", "S")]⟩, ⟨"v2", true, [("Size", "M")]⟩]
    [("Size", "L")] (by decide) (by decide)

/-! ## C3: filter matching -/

/-- Unique tokenization of JSON-escaped strings: an escaped body followed
by an unescaped closing quote determines the body and the remainder.
The escape codewords (a single non-special character, or a backslash
followed by the escaped character) form a prefix code, and none of them
starts with an unescaped quote. -/
theorem quote_split : ∀ (a b r s : List Char),
    escStr a ++ '"' :: r = escStr b ++ '"' :: s → a = b ∧ r = s := by
  intro a
  induction a with
  | nil =>
    intro b r s h
    cases b with
    | nil =>
      simp only [escStr, List.nil_append, List.cons.injEq, true_and] at h
      exact ⟨rfl, h⟩
    | cons d b2 =>
      exfalso
      by_cases hd : d = '"' ∨ d = '\\'
      · simp only [escStr, escapeChar, if_pos hd, List.nil_append,
          List.cons_append, List.cons.injEq] at h
        exact absurd h.1 (by decide)
      · simp only [escStr, escapeChar, if_neg hd, List.nil_append,
          List.cons_append, List.cons.injEq] at h
        push_neg at hd
        exact hd.1 h.1.symm
  | cons c a2 ih =>
    intro b r s h
    cases b with
    | nil =>
      exfalso
      by_cases hc : c = '"' ∨ c = '\\'
      · simp only [escStr, escapeChar, if_pos hc, List.nil_append,
          List.cons_append, List.cons.injEq] at h
        exact absurd h.1 (by decide)
      · simp only [escStr, escapeChar, if_neg hc, List.nil_append,
          List.cons_append, List.cons.injEq] at h
        push_neg at hc
        exact hc.1 h.1
    | cons d b2 =>
      by_cases hc : c = '"' ∨ c = '\\' <;> by_cases hd : d = '"' ∨ d = '\\'
      · simp only [escStr, escapeChar, if_pos hc, if_pos hd,
          List.cons_append, List.append_assoc, List.cons.injEq,
          true_and] at h
        obtain ⟨hcd, htail⟩ := h
        obtain ⟨hab, hrs⟩ := ih b2 r s htail
        exact ⟨by rw [hcd, hab], hrs⟩
      · exfalso
        simp only [escStr, escapeChar, if_pos hc, if_neg hd,
          List.cons_append, List.append_assoc, List.cons.injEq] at h
        push_neg at hd
        exact hd.2 h.1.symm
      · exfalso
        simp only [escStr, escapeChar, if_neg hc, if_pos hd,
          List.cons_append, List.append_assoc, List.cons.injEq] at h
        push_neg at hc
        exact hc.2 h.1
      · simp only [escStr, escapeChar, if_neg hc, if_neg hd,
          List.cons_append, List.append_assoc, List.cons.injEq] at h
        obtain ⟨hcd, htail⟩ := h
        obtain ⟨hab, hrs⟩ := ih b2 r s htail
        exact ⟨by rw [hcd, hab], hrs⟩

/-- A one-key JSON object determines its key and payload. -/
theorem keyWrap_inj {k1 p1 k2 p2 : List Char}
    (h : keyWrap k1 p1 = keyWrap k2 p2) : k1 = k2 ∧ p1 = p2 := by
  unfold keyWrap at h
  simp only [List.cons.injEq, true_and] at h
  obtain ⟨hk, htail⟩ :=
    quote_split k1 k2 (':' :: (p1 ++ ['}'])) (':' :: (p2 ++ ['}'])) h
  refine ⟨hk, ?_⟩
  simp only [List.cons.injEq, true_and] at htail
  have hlen : p1.length = p2.length := by
    have hl := congrArg List.length htail
    simp only [List.length_append] at hl
    omega
  exact (List.append_inj htail hlen).1

/-- A JSON string literal determines its body. -/
theorem strLit_inj {s t : List Char} (h : strLit s = strLit t) : s = t := by
  unfold strLit at h
  simp only [List.cons.injEq, true_and] at h
  exact (quote_split s t [] [] (by simpa using h)).1

/-- The serialized variantOption object determines its name and value. -/
theorem voInner_inj {n1 v1 n2 v2 : List Char}
    (h : voInner n1 v1 = voInner n2 v2) : n1 = n2 ∧ v1 = v2 := by
  unfold voInner at h
  simp only [List.cons_append, List.nil_append, List.cons.injEq,
    true_and] at h
  obtain ⟨hn, htail⟩ := quote_split n1 n2 _ _ h
  refine ⟨hn, ?_⟩
  simp only [List.cons.injEq, true_and] at htail
  have h2 : escStr v1 ++ '"' :: ['}'] = escStr v2 ++ '"' :: ['}'] := by
    simpa using htail
  exact (quote_split v1 v2 ['}'] ['}'] h2).1

/-- JSON.stringify is injective on parsed filter inputs, outside the
both-price case (which the matcher short-circuits before comparing
serializations): equal serializations have equal keys, hence the same
constructor, and equal payloads, hence equal fields. -/
theorem jsonStringify_inj_of_not_price {v f : PF}
    (hnp : ¬(hasPriceKey v = true ∧ hasPriceKey f = true))
    (h : jsonStringify v = jsonStringify f) : v = f := by
  unfold jsonStringify at h
  obtain ⟨hk, hp⟩ := keyWrap_inj h
  cases v <;> cases f <;>
    simp only [pfKey] at hk <;>
    simp only [pfPayload] at hp <;>
    first
      | (exact absurd hk (by decide))
      | skip
  case price.price => exact absurd ⟨rfl, rfl⟩ hnp
  case available.available b1 b2 =>
    cases b1 <;> cases b2 <;>
      first
        | rfl
        | (exact absurd hp (by decide))
  case tag.tag t1 t2 => rw [strLit_inj hp]
  case productVendor.productVendor v1 v2 => rw [strLit_inj hp]
  case productType.productType t1 t2 => rw [strLit_inj hp]
  case variantOption.variantOption n1 v1 n2 v2 =>
    obtain ⟨h1, h2⟩ := voInner_inj hp
    rw [h1, h2]

/-- Claim C3: a decoded filter input whose object has a price key matches
any declared facet value whose input has a price key, irrespective of
the specific min/max bounds, while every other pairing matches exactly
when the two input objects are structurally equal. -/
theorem matchesValue_iff (valueInput filter : PF) :
    matchesValue valueInput filter = true ↔
      (hasPriceKey valueInput = true ∧ hasPriceKey filter = true) ∨
        valueInput = filter := by
  unfold matchesValue
  by_cases hp : hasPriceKey valueInput = true ∧ hasPriceKey filter = true
  · simp [hp.1, hp.2]
  · rw [if_neg (by simpa [Bool.and_eq_true] using hp)]
    rw [beq_iff_eq]
    constructor
    · intro h
      exact Or.inr (jsonStringify_inj_of_not_price hp h)
    · rintro (hcontra | rfl)
      · exact absurd hcontra hp
      · rfl

/-! ## C10: recommended products -/

/-- Splicing one element at the JS findIndex: when some element matches,
this removes the first match; when none does, findIndex is -1 and the
splice removes the last element (or nothing from an empty list). -/
theorem jsSplice_jsFindIndex (p : RProduct → Bool) :
    ∀ l : List RProduct, jsSpliceRemoveOne l (jsFindIndex l p) =
      if l.any p then l.eraseP p else l.dropLast := by
  intro l
  induction l with
  | nil => rfl
  | cons a rest ih =>
    by_cases ha : p a
    · have hfi : jsFindIndex (a :: rest) p = 0 := by
        simp [jsFindIndex, List.findIdx?_cons, ha]
      rw [hfi]
      have hsplice : jsSpliceRemoveOne (a :: rest) 0 = rest := by
        simp [jsSpliceRemoveOne]
      rw [hsplice, if_pos (by simp [List.any_cons, ha]),
        List.eraseP_cons_of_pos ha]
    · rcases hfound : List.findIdx? p rest with _ | i
      · have hfi : jsFindIndex (a :: rest) p = -1 := by
          simp [jsFindIndex, List.findIdx?_cons, ha, List.findIdx?_succ,
            hfound]
        have hnone : (a :: rest).any p = false := by
          have hall := List.findIdx?_eq_none_iff.mp hfound
          simp only [List.any_cons, Bool.or_eq_false_iff]
          exact ⟨by simpa using ha, List.any_eq_false.mpr
            (fun x hx => by simp [hall x hx])⟩
        rw [hfi, if_neg (by simp [hnone])]
        simp only [jsSpliceRemoveOne]
        rw [if_pos (by norm_num)]
        have h1 : (((a :: rest).length : Int) + (-1)).toNat = rest.length := by
          simp only [List.length_cons]
          omega
        rw [h1, List.dropLast_eq_take]
        have h2 : List.drop (rest.length + 1) (a :: rest) = [] :=
          List.drop_eq_nil_of_le (by simp)
        rw [h2, List.append_nil]
        simp [List.length_cons]
      · have hfi : jsFindIndex (a :: rest) p = ((i : Int) + 1) := by
          simp [jsFindIndex, List.findIdx?_cons, ha, List.findIdx?_succ,
            hfound]
        have hany : rest.any p = true := by
          rcases Bool.eq_false_or_eq_true (rest.any p) with ht | hf
          · exact ht
          · have := List.findIdx?_eq_none_iff.mpr
              (fun x hx => by
                have := List.any_eq_false.mp hf x hx
                simpa using this)
            rw [this] at hfound
            exact absurd hfound (by simp)
        have hstep : jsSpliceRemoveOne (a :: rest) ((i : Int) + 1) =
            a :: jsSpliceRemoveOne rest (i : Int) := by
          simp only [jsSpliceRemoveOne]
          rw [if_neg (by omega), if_neg (by omega)]
          have h3 : ((i : Int) + 1).toNat = i + 1 := by omega
          have h4 : ((i : Int)).toNat = i := by omega
          rw [h3, h4, List.length_cons, Nat.succ_min_succ,
            List.take_succ_cons, List.drop_succ_cons]
          rfl
        have hfir : jsFindIndex rest p = (i : Int) := by
          simp [jsFindIndex, hfound]
        rw [hfi, hstep, ← hfir, ih]
        rw [if_pos hany,
          if_pos (show (a :: rest).any p = true from by
            simp [List.any_cons, hany]),
          List.eraseP_cons_of_neg ha]

/-- The enumeration of a list is strictly increasing on indices. -/
theorem enum_pairwise_fst_lt {α : Type} (l : List α) :
    l.enum.Pairwise (fun p q => p.1 < q.1) := by
  rw [List.pairwise_iff_getElem]
  intro i j hi hj hij
  rw [List.getElem_enum, List.getElem_enum]
  exact hij

/-- The dedup filter keeps at most one element per id. -/
theorem dedupById_pairwise (l : List RProduct) :
    (dedupById l).Pairwise (fun a b => a.pid ≠ b.pid) := by
  unfold dedupById
  apply List.Pairwise.map (fun p : Nat × RProduct => p.2)
    (fun a b hab => hab)
  refine List.Pairwise.imp_of_mem ?_
    (List.Pairwise.sublist (List.filter_sublist _) (enum_pairwise_fst_lt l))
  intro p q hp hq hlt hpid
  have hcp := (List.mem_filter.mp hp).2
  have hcq := (List.mem_filter.mp hq).2
  rw [beq_iff_eq] at hcp hcq
  rw [show (fun w : RProduct => w.pid == p.2.pid) =
      (fun w : RProduct => w.pid == q.2.pid) from by
    funext w; rw [hpid]] at hcp
  have : (p.1 : Int) = (q.1 : Int) := by rw [← hcp, hcq]
  omega

/-- In a list with pairwise-distinct ids, erasing the first element with
a given id leaves no element with that id. -/
theorem not_pid_mem_eraseP {productId : String} :
    ∀ {l : List RProduct}, l.Pairwise (fun a b => a.pid ≠ b.pid) →
      ∀ x ∈ l.eraseP (fun y => y.pid == productId), x.pid ≠ productId := by
  intro l
  induction l with
  | nil => intro _ x hx; simp [List.eraseP] at hx
  | cons a rest ih =>
    intro hpw x hx
    by_cases ha : a.pid = productId
    · rw [List.eraseP_cons_of_pos (by simp [ha])] at hx
      intro hxpid
      have hne := (List.pairwise_cons.mp hpw).1 x hx
      exact hne (by rw [hxpid, ha])
    · rw [List.eraseP_cons_of_neg (by simp [ha])] at hx
      rcases List.mem_cons.mp hx with rfl | hx2
      · exact ha
      · exact ih (List.pairwise_cons.mp hpw).2 x hx2

/-- Claim C10: the recommendations list contains no two products with the
same id and never contains the requested product; and whenever the
deduplicated merged list is nonempty, exactly one element is removed
from it — the product with the requested id when present, the last
element otherwise. -/
theorem getRecommendedProducts_spec (recommended additional : List RProduct)
    (productId : String) :
    (getRecommendedProducts recommended additional productId).Pairwise
      (fun a b => a.pid ≠ b.pid) ∧
    (∀ x ∈ getRecommendedProducts recommended additional productId,
      x.pid ≠ productId) ∧
    (dedupById (recommended ++ additional) ≠ [] →
      (getRecommendedProducts recommended additional productId).length + 1 =
        (dedupById (recommended ++ additional)).length ∧
      getRecommendedProducts recommended additional productId =
        (if (dedupById (recommended ++ additional)).any
            (fun x => x.pid == productId) then
          (dedupById (recommended ++ additional)).eraseP
            (fun x => x.pid == productId)
        else (dedupById (recommended ++ additional)).dropLast)) := by
  have hpw := dedupById_pairwise (recommended ++ additional)
  have hres : getRecommendedProducts recommended additional productId =
      (if (dedupById (recommended ++ additional)).any
          (fun x => x.pid == productId) then
        (dedupById (recommended ++ additional)).eraseP
          (fun x => x.pid == productId)
      else (dedupById (recommended ++ additional)).dropLast) :=
    jsSplice_jsFindIndex (fun item => item.pid == productId)
      (dedupById (recommended ++ additional))
  refine ⟨?_, ?_, ?_⟩
  · rw [hres]
    split
    · exact hpw.sublist (List.eraseP_sublist _)
    · exact hpw.sublist (List.dropLast_sublist _)
  · rw [hres]
    split
    · exact fun x hx => not_pid_mem_eraseP hpw x hx
    · rename_i hanyf
      intro x hx
      have hmem := (List.dropLast_sublist _).subset hx
      have := List.any_eq_false.mp (Bool.not_eq_true _ |>.mp hanyf) x hmem
      simpa using this
  · intro hne
    refine ⟨?_, hres⟩
    rw [hres]
    split
    · rename_i hany
      obtain ⟨x, hxmem, hxp⟩ := List.any_eq_true.mp hany
      rw [List.length_eraseP_of_mem hxmem hxp]
      have : 0 < (dedupById (recommended ++ additional)).length :=
        List.length_pos.mpr hne
      omega
    · rw [List.length_dropLast]
      have : 0 < (dedupById (recommended ++ additional)).length :=
        List.length_pos.mpr hne
      omega

/-- Witness for C10: merging abc with c for requested id b removes b;
the result has distinct ids and no b. -/
theorem getRecommendedProducts_spec_witness :
    dedupById ([⟨"a", "A"⟩, ⟨"b", "B"⟩] ++ [⟨"c", "C"⟩]) ≠ [] ∧
      getRecommendedProducts [⟨"a", "A"⟩, ⟨"b", "B"⟩] [⟨"c", "C"⟩] ("b") =
        [⟨"a", "A"⟩, ⟨"c", "C"⟩] := by
  have h := (getRecommendedProducts_spec [⟨"a", "A"⟩, ⟨"b", "B"⟩]
    [⟨"c", "C"⟩] ("b")).2.2 (by decide)
  refine ⟨by decide, ?_⟩
  rw [h.2]
  decide

end Storefront
